import Mathlib

/-!
Verification development for the hierarchical architecture graph engine of the
codeblock-vsix repository.  The definitions below are a shallow embedding of
the relevant TypeScript sources:

* `src/graph/GraphService.ts` — ownership resolution, call-edge aggregation and
  graph assembly (`generateGraph`, `processSymbols`, `_aggregateOutgoingCalls`,
  `_getNodeId`);
* `ProcessInferenceService.generateHeuristicFlow` and the drill-down branch of
  `BlockManager`'s webview message handler;
* the webview frontend (`CallGraphContent`): `getLayoutedElements` visibility,
  the `updateGraph` message handler, `goBack`, and `onNodeDoubleClick`.

Asynchronous editor services (document symbols, call hierarchy) are modelled
as explicit oracle inputs; JavaScript `Map`/`Set` objects are modelled as
insertion-ordered association lists with the same `set`/`get`/`add` semantics.
Purely visual attributes of graph nodes (CSS styles, pixel positions computed
by the external dagre library) are not part of the model.
-/

namespace CodeBlocks

/-! ### Insertion-ordered maps (JavaScript `Map` semantics)

A JS `Map` keeps keys in insertion order; `set` on an existing key updates the
value in place, `set` on a fresh key appends.  We model it as an association
list with distinct keys. -/

/-- `m.get(k)` on a JS `Map`: the value stored at `k`, if any. -/
def mapGet {κ α : Type} [DecidableEq κ] : List (κ × α) → κ → Option α
  | [], _ => none
  | (k, v) :: m, k' => if k = k' then some v else mapGet m k'

/-- `m.set(k, v)` on a JS `Map`: update in place if the key is present,
append otherwise. -/
def mapSet {κ α : Type} [DecidableEq κ] (m : List (κ × α)) (k : κ) (v : α) :
    List (κ × α) :=
  if (mapGet m k).isSome then
    m.map (fun p => if p.1 = k then (k, v) else p)
  else
    m ++ [(k, v)]

/-- `s.add(x)` on a JS `Set`: append the element if it is not yet present. -/
def setAdd {α : Type} [DecidableEq α] (s : List α) (x : α) : List α :=
  if x ∈ s then s else s ++ [x]

@[simp] theorem mapGet_nil {κ α : Type} [DecidableEq κ] (k : κ) :
    mapGet ([] : List (κ × α)) k = none := rfl

theorem mapGet_cons {κ α : Type} [DecidableEq κ] (k k' : κ) (v : α)
    (m : List (κ × α)) :
    mapGet ((k, v) :: m) k' = if k = k' then some v else mapGet m k' := rfl

theorem mapGet_append {κ α : Type} [DecidableEq κ] (m₁ m₂ : List (κ × α))
    (k : κ) :
    mapGet (m₁ ++ m₂) k =
      ((mapGet m₁ k).rec (mapGet m₂ k) (fun v => some v) : Option α) := by
  induction m₁ with
  | nil => simp [mapGet]
  | cons p m ih =>
    obtain ⟨k', v⟩ := p
    by_cases h : k' = k <;> simp [mapGet, h, ih]

/-! ### Entities

`vscode.DocumentSymbol` trees as consumed by `GraphService`.  Only the fields
the graph engine reads are kept: name, kind, the start line of `range` (used
in `_getNodeId`), the start line of `selectionRange` (used for the reverse
call-hierarchy index), the `detail` string (JS `undefined` modelled as `""`,
matching its falsiness under `||`), and children. -/

/-- The symbol kinds distinguished by `GraphService.processSymbols` plus the
other kinds that `SymbolParser` lets through (`Module`, `Package`, `Object`,
`Property`, `Struct`, `Constructor`). -/
inductive SymbolKind : Type
  | classKind
  | interface
  | function
  | method
  | constant
  | var
  | moduleKind
  | package
  | objectKind
  | property
  | structKind
  | constructorKind
deriving DecidableEq, Repr

/-- The display name the source computes with `vscode.SymbolKind[item.kind]`. -/
def SymbolKind.jsName : SymbolKind → String
  | .classKind => "Class"
  | .interface => "Interface"
  | .function => "Function"
  | .method => "Method"
  | .constant => "Constant"
  | .var => "Variable"
  | .moduleKind => "Module"
  | .package => "Package"
  | .objectKind => "Object"
  | .property => "Property"
  | .structKind => "Struct"
  | .constructorKind => "Constructor"

mutual

/-- A `vscode.DocumentSymbol`: name, kind, `range.start.line`,
`selectionRange.start.line`, `detail`, children.  The children array is its
own mutually inductive list type so that every tree recursion below is
structural (and hence computable by evaluation on concrete inputs). -/
inductive Sym : Type
  | mk (name : String) (kind : SymbolKind) (rangeLine : Nat) (selLine : Nat)
      (detail : String) (children : SymList)

/-- An array of `DocumentSymbol`s. -/
inductive SymList : Type
  | nil
  | cons (s : Sym) (l : SymList)

end

def Sym.name : Sym → String
  | .mk n _ _ _ _ _ => n

def Sym.kind : Sym → SymbolKind
  | .mk _ k _ _ _ _ => k

def Sym.rangeLine : Sym → Nat
  | .mk _ _ r _ _ _ => r

def Sym.selLine : Sym → Nat
  | .mk _ _ _ s _ _ => s

def Sym.detail : Sym → String
  | .mk _ _ _ _ d _ => d

def Sym.children : Sym → SymList
  | .mk _ _ _ _ _ c => c

/-- View a symbol array as an ordinary list (for stating properties). -/
def SymList.toList : SymList → List Sym
  | .nil => []
  | .cons s l => s :: SymList.toList l

/-- `GraphService._getNodeId`: `${uri}::${name}::${range.start.line}`. -/
def symNodeId (uri : String) (s : Sym) : String :=
  uri ++ "::" ++ s.name ++ "::" ++ toString s.rangeLine

/-- The reverse-lookup key `_getNodeId` registers:
`${uri}:${selectionRange.start.line}`. -/
def symNodeKey (uri : String) (s : Sym) : String :=
  uri ++ ":" ++ toString s.selLine

/-! ### Graph nodes and edges (`GraphService` output)

Only the structural fields are modelled; `style`, `position` and `extent` are
presentation attributes consumed by the webview and carry no graph
information.  Optional string fields that the source leaves `undefined` are
modelled as `""` (they are only ever used in falsy checks or displayed). -/

structure RFNode where
  id : String
  /-- ReactFlow node type: `"group"` or `"component"`. -/
  type : String
  parentNode : Option String
  /-- `data.label`. -/
  label : String
  /-- `data.type`: `"system"`, `"file"` or `"component"`. -/
  dataType : String
  /-- `data.detail` (`""` when absent). -/
  detail : String
  /-- `data.kind` (`""` when absent). -/
  kindLabel : String
deriving DecidableEq, Repr

/-- One entry of `GraphService`'s `edgeMap`:
`{ count, calls: Set<string> }` (the JS `Set` is kept as an insertion-ordered
duplicate-free list). -/
structure EdgeMeta where
  count : Nat
  calls : List String
deriving DecidableEq, Repr

/-- The source keys `edgeMap` by the string `${sourceId}|${targetId}` and
recovers the two ids with `key.split('|')`; we key by the pair directly, which
coincides with the source for ids not containing `'|'` (node ids are built
from URIs, symbol names and line numbers). -/
abbrev EdgeMap := List ((String × String) × EdgeMeta)

structure RFEdge where
  id : String
  source : String
  target : String
  /-- `label`: `none` models JS `undefined` (set only when `count > 1`). -/
  label : Option String
  /-- `data.calls` (from the aggregated `Set`). -/
  calls : List String
deriving DecidableEq, Repr

/-- One outgoing call reported by the editor's call-hierarchy provider:
`call.to.uri`, `call.to.selectionRange.start.line`, `call.to.name`. -/
structure OutCall where
  targetUri : String
  targetSelLine : Nat
  targetName : String

/-- The call-hierarchy collaborator
(`vscode.executePrepareCallHierarchy` followed by
`vscode.provideOutgoingCalls`), as an oracle from
`(document.uri, symbol.selectionRange.start.line)` to the reported outgoing
calls.  A failing or unsupported provider is the constant `[]` oracle. -/
abbrev CallOracle := String → Nat → List OutCall

/-- One input file handed to `generateGraph`:
`{ document, symbols }` with `document.uri.toString()` and
`document.uri.fsPath`. -/
structure FileInput where
  uri : String
  fsPath : String
  symbols : SymList

/-- `path.basename` (POSIX behaviour on `/`-separated paths). -/
def basename (p : String) : String :=
  (p.splitOn "/").getLastD p

/-- ASCII lowercasing of one character. -/
def lowerChar (c : Char) : Char :=
  if 'A' ≤ c ∧ c ≤ 'Z' then Char.ofNat (c.toNat + 32) else c

/-- JS `toLowerCase`, restricted to ASCII (which covers everything the source
lowercases: ReactFlow type tags and module-name slugs). -/
def jsToLower (s : String) : String :=
  ⟨s.data.map lowerChar⟩

/-- `moduleName.replace(/\s+/g, '-')`: every maximal run of whitespace becomes
a single dash. -/
def dashWhitespaceRuns (s : String) : String :=
  (s.toList.foldl
    (fun (acc : String × Bool) c =>
      if c.isWhitespace then
        if acc.2 then acc else (acc.1.push '-', true)
      else (acc.1.push c, false))
    ("", false)).1

/-- The id of a semantic module group node:
`mod-${moduleName.replace(/\s+/g, '-').toLowerCase()}`. -/
def moduleGroupId (moduleName : String) : String :=
  "mod-" ++ jsToLower (dashWhitespaceRuns moduleName)

/-- `ROOT_ID`: the synthetic root container id. -/
def rootId : String := "root-system"

/-! ### `generateGraph`, phase 1: node creation and ownership resolution -/

/-- The mutable maps `generateGraph` threads through its first pass, together
with the accumulated `nodes` array. -/
structure BuildState where
  nodes : List RFNode
  /-- `fileMap`: uri → fileNodeId. -/
  fileMap : List (String × String)
  /-- `classMap`: `"uri::ClassName"` → classNodeId. -/
  classMap : List (String × String)
  /-- `symbolOwnerMap`: symbolId → ownerId. -/
  ownerMap : List (String × String)
  /-- `_nodeIdMap`: `"uri:selLine"` → nodeId. -/
  nodeIdMap : List (String × String)
  /-- `moduleGroups`: module name → groupId. -/
  moduleGroups : List (String × String)

/-- The side effect of `_getNodeId`: register the reverse-lookup key. -/
def registerNodeId (uri : String) (s : Sym) (st : BuildState) : BuildState :=
  { st with nodeIdMap := mapSet st.nodeIdMap (symNodeKey uri s) (symNodeId uri s) }

/-- The `assignOwner` closure inside `processSymbols`: walk a subtree list,
registering each symbol's id and mapping it to `owner`. -/
def assignOwnerList (uri owner : String) : SymList → BuildState → BuildState
  | .nil, st => st
  | .cons (Sym.mk n k r sl d cs) rest, st =>
    let sub := Sym.mk n k r sl d cs
    let st := registerNodeId uri sub st
    let st := { st with ownerMap := mapSet st.ownerMap (symNodeId uri sub) owner }
    let st := assignOwnerList uri owner cs st
    assignOwnerList uri owner rest st

/-- The class/interface node pushed by `processSymbols`
(`data.kind` is the literal `'Class'` in the source, even for interfaces). -/
def classNode (id : String) (activeParentId : String) (item : Sym) : RFNode :=
  { id := id, type := "component", parentNode := some activeParentId,
    label := item.name, dataType := "component", detail := item.detail,
    kindLabel := "Class" }

/-- The component node pushed for a top-level function/constant when
`includeFiles` is `false` (`detail: item.detail || 'Function'`, where `""`
models a missing `detail` and is falsy in JS). -/
def topLevelFnNode (id : String) (systemParentId : String) (item : Sym) : RFNode :=
  { id := id, type := "component", parentNode := some systemParentId,
    label := item.name, dataType := "component",
    detail := if item.detail = "" then "Function" else item.detail,
    kindLabel := item.kind.jsName }

/-- `processSymbols(items, ownerId, systemParentId)`: the per-file top-level
symbol loop.  Returns the updated state and the `hasChildren` flag.  Only
class/interface items and function/method/constant/variable items are handled;
items of any other kind fall through the `if`/`else if` chain untouched (their
children included). -/
def processSymbols (includeFiles : Bool) (uri fileId : String)
    (ownerId systemParentId : String) :
    SymList → BuildState → Bool → BuildState × Bool
  | .nil, st, hasChildren => (st, hasChildren)
  | .cons item rest, st, hasChildren =>
    let st := registerNodeId uri item st
    let id := symNodeId uri item
    if item.kind = .classKind ∨ item.kind = .interface then
      -- FLATTENING LOGIC: parent is the file when includeFiles, else the system
      let activeParentId := if includeFiles then ownerId else systemParentId
      let st := { st with
        nodes := st.nodes ++ [classNode id activeParentId item],
        classMap := mapSet st.classMap (uri ++ "::" ++ item.name) id }
      let st := { st with ownerMap := mapSet st.ownerMap id id }
      -- direct children only: register and map to the class
      let st := item.children.toList.foldl
        (fun st child =>
          let st := registerNodeId uri child st
          { st with ownerMap := mapSet st.ownerMap (symNodeId uri child) id })
        st
      processSymbols includeFiles uri fileId ownerId systemParentId rest st true
    else if item.kind = .function ∨ item.kind = .method ∨
            item.kind = .constant ∨ item.kind = .var then
      let isTopLevel := ownerId = fileId
      if isTopLevel ∧ ¬includeFiles then
        let st := { st with nodes := st.nodes ++ [topLevelFnNode id systemParentId item] }
        let st := { st with ownerMap := mapSet st.ownerMap id id }
        let st := assignOwnerList uri id item.children st
        processSymbols includeFiles uri fileId ownerId systemParentId rest st hasChildren
      else
        let activeParent := if includeFiles then ownerId else systemParentId
        let st := { st with ownerMap := mapSet st.ownerMap id activeParent }
        let st := assignOwnerList uri activeParent item.children st
        processSymbols includeFiles uri fileId ownerId systemParentId rest st hasChildren
    else
      processSymbols includeFiles uri fileId ownerId systemParentId rest st hasChildren

/-- The virtual root node pushed when `virtualRootLabel` is given. -/
def virtualRootNode (label : String) : RFNode :=
  { id := rootId, type := "group", parentNode := none, label := label,
    dataType := "system", detail := "", kindLabel := "" }

/-- A semantic module group node (`data.type = 'system'` triggers drill-down). -/
def moduleGroupNode (groupId moduleName : String) : RFNode :=
  { id := groupId, type := "group", parentNode := none, label := moduleName,
    dataType := "system", detail := "", kindLabel := "" }

/-- The file container node (before the possible leaf conversion). -/
def fileGroupNode (fileId : String) (parentId : Option String) (fsPath : String) :
    RFNode :=
  { id := fileId, type := "group", parentNode := parentId,
    label := basename fsPath, dataType := "file", detail := "", kindLabel := "" }

/-- The body of the per-file loop of `generateGraph`'s first pass. -/
def processFile (semanticMap : Option (List (String × String)))
    (virtualRootLabel : Option String) (includeFiles : Bool)
    (st : BuildState) (f : FileInput) : BuildState :=
  -- let parentId = virtualRootLabel ? ROOT_ID : undefined
  let parentId0 : Option String :=
    if virtualRootLabel.isSome then some rootId else none
  let stParent :=
    match semanticMap with
    | some sm =>
      match mapGet sm f.fsPath with
      | some moduleName =>
        let st :=
          if (mapGet st.moduleGroups moduleName).isSome then st
          else
            { st with
              nodes := st.nodes ++ [moduleGroupNode (moduleGroupId moduleName) moduleName],
              moduleGroups := mapSet st.moduleGroups moduleName (moduleGroupId moduleName) }
        (st, mapGet st.moduleGroups moduleName)
      | none => (st, parentId0)
    | none => (st, parentId0)
  let st := stParent.1
  let parentId := stParent.2
  let fileId := "file-" ++ f.uri
  let st := { st with fileMap := mapSet st.fileMap f.uri fileId }
  -- Only add the file node if includeFiles is true
  let st :=
    if includeFiles then
      { st with nodes := st.nodes ++ [fileGroupNode fileId parentId f.fsPath] }
    else st
  let stHc := processSymbols includeFiles f.uri fileId fileId (parentId.getD rootId)
    f.symbols st false
  let st := stHc.1
  let hasChildren := stHc.2
  -- CONVERT TO LEAF IF EMPTY (only when includeFiles): mutate the pushed node
  if includeFiles ∧ ¬hasChildren then
    { st with
      nodes := st.nodes.map (fun n =>
        if n.id = fileId then { n with type := "component", detail := "Source File" }
        else n) }
  else st

/-- The full input of `generateGraph`.  The `cachedSummaries` parameter of the
source is never read inside the function body and is omitted. -/
structure GenInput where
  files : List FileInput
  semanticMap : Option (List (String × String))
  virtualRootLabel : Option String
  includeFiles : Bool

/-- Phase 1 of `generateGraph`: node creation and ownership resolution,
starting from cleared maps (`this._nodeIdMap.clear()`). -/
def buildPhase (input : GenInput) : BuildState :=
  let st0 : BuildState := ⟨[], [], [], [], [], []⟩
  let st0 :=
    match input.virtualRootLabel with
    | some label => { st0 with nodes := [virtualRootNode label] }
    | none => st0
  input.files.foldl
    (processFile input.semanticMap input.virtualRootLabel input.includeFiles) st0

/-! ### `generateGraph`, phase 2: call-edge aggregation

`processCalls` walks every symbol tree again, registering reverse-lookup ids
(`_getNodeId` is called before the `visitedSymbols` check and mutates
`_nodeIdMap`), deduplicating by node id, and scheduling one
`_aggregateOutgoingCalls` promise per first-visited symbol.  All the
synchronous map registrations happen before any promise continuation reads
`_nodeIdMap` (single-threaded event loop, reads occur after `await`s), so the
aggregation runs against the fully populated maps; the visit order below is
the program order in which the promises are created. -/

structure CallVisit where
  nodeIdMap : List (String × String)
  /-- `visitedSymbols`. -/
  visited : List String
  /-- The `(uri, symbol, id)` triples for which `_aggregateOutgoingCalls` is
  scheduled, in scheduling order. -/
  order : List (String × Sym × String)

/-- The recursive `processCalls` closure for one file. -/
def visitCalls (uri : String) : SymList → CallVisit → CallVisit
  | .nil, cv => cv
  | .cons (Sym.mk n k r sl d cs) rest, cv =>
    let item := Sym.mk n k r sl d cs
    let id := symNodeId uri item
    let cv := { cv with nodeIdMap := mapSet cv.nodeIdMap (symNodeKey uri item) id }
    if id ∈ cv.visited then
      visitCalls uri rest cv
    else
      let cv := { cv with visited := cv.visited ++ [id],
                          order := cv.order ++ [(uri, item, id)] }
      let cv := visitCalls uri cs cv
      visitCalls uri rest cv

/-- The per-file loop of phase 2 (files whose uri is missing from `fileMap`
are skipped by the `if (!fileId) continue` guard). -/
def visitAllCalls (fileMap : List (String × String)) (files : List FileInput)
    (cv : CallVisit) : CallVisit :=
  files.foldl
    (fun cv f =>
      if (mapGet fileMap f.uri).isSome then visitCalls f.uri f.symbols cv else cv)
    cv

/-- Increment-or-create on `edgeMap`: repeated calls increment `count` and
`add` the description to the `calls` set. -/
def bumpEdge (em : EdgeMap) (p : String × String) (callDesc : String) : EdgeMap :=
  match mapGet em p with
  | some meta =>
    mapSet em p { count := meta.count + 1, calls := setAdd meta.calls callDesc }
  | none => mapSet em p { count := 1, calls := [callDesc] }

/-- `_aggregateOutgoingCalls(document, symbol, symbolId, ownerMap, edgeMap)`:
look up the symbol's owner (a symbol that was never mapped contributes
nothing — the `// Should be mapped` early return), probe only
methods/functions, resolve each reported call target through the reverse
`_nodeIdMap` index and the owner map, and record cross-owner calls. -/
def aggregateOutgoingCalls (oracle : CallOracle)
    (nodeIdMap ownerMap : List (String × String)) (uri : String) (s : Sym)
    (symbolId : String) (em : EdgeMap) : EdgeMap :=
  match mapGet ownerMap symbolId with
  | none => em
  | some sourceOwnerId =>
    if s.kind ≠ .method ∧ s.kind ≠ .function then em
    else
      (oracle uri s.selLine).foldl
        (fun em call =>
          match mapGet nodeIdMap (call.targetUri ++ ":" ++ toString call.targetSelLine) with
          | none => em
          | some targetNodeId =>
            match mapGet ownerMap targetNodeId with
            | none => em
            | some targetOwnerId =>
              if sourceOwnerId ≠ targetOwnerId then
                bumpEdge em (sourceOwnerId, targetOwnerId)
                  (s.name ++ " -> " ++ call.targetName)
              else em)
        em

/-- Fold the scheduled aggregations into the shared `edgeMap` (aggregation is
commutative — see `generateGraph_callOrder_irrelevant` — so this program-order
fold represents every completion order). -/
def runCallPhase (oracle : CallOracle) (nodeIdMap ownerMap : List (String × String))
    (order : List (String × Sym × String)) : EdgeMap :=
  order.foldl
    (fun em t => aggregateOutgoingCalls oracle nodeIdMap ownerMap t.1 t.2.1 t.2.2 em)
    []

/-- The `edgeMap.forEach` conversion: one `Edge` per entry, skipping
self-loops, with a `"N calls"` label only when `count > 1`. -/
def edgesOfMap (em : EdgeMap) : List RFEdge :=
  em.foldl
    (fun acc pm =>
      if pm.1.1 ≠ pm.1.2 then
        acc ++ [{ id := "e-" ++ pm.1.1 ++ "-" ++ pm.1.2,
                  source := pm.1.1, target := pm.1.2,
                  label := if pm.2.count > 1 then some (toString pm.2.count ++ " calls") else none,
                  calls := pm.2.calls }]
      else acc)
    []

structure GraphOutput where
  nodes : List RFNode
  edges : List RFEdge
deriving DecidableEq, Repr

/-- The reverse-lookup state after both passes. -/
def callVisitPhase (input : GenInput) : CallVisit :=
  let b := buildPhase input
  visitAllCalls b.fileMap input.files
    { nodeIdMap := b.nodeIdMap, visited := [], order := [] }

/-- The final `edgeMap` of one `generateGraph` run. -/
def generateEdgeMap (input : GenInput) (oracle : CallOracle) : EdgeMap :=
  runCallPhase oracle (callVisitPhase input).nodeIdMap (buildPhase input).ownerMap
    (callVisitPhase input).order

/-- The service-level mutable state: `GraphService._nodeIdMap` persists
between calls (and is cleared at the start of each `generateGraph`). -/
structure ServiceState where
  nodeIdMap : List (String × String)

/-- One stateful `generateGraph` call: the incoming `_nodeIdMap` is cleared
first, so the output depends only on the input and the oracle. -/
def generateGraphRun (st : ServiceState) (input : GenInput) (oracle : CallOracle) :
    ServiceState × GraphOutput :=
  -- this._nodeIdMap.clear(): the previous state `st` is discarded here
  let _ := st
  ({ nodeIdMap := (callVisitPhase input).nodeIdMap },
   { nodes := (buildPhase input).nodes,
     edges := edgesOfMap (generateEdgeMap input oracle) })

/-- `generateGraph` as a function of its inputs. -/
def generateGraph (input : GenInput) (oracle : CallOracle) : GraphOutput :=
  (generateGraphRun ⟨[]⟩ input oracle).2

/-- The symbol-owner map produced by a `generateGraph` run. -/
def generateOwnerMap (input : GenInput) : List (String × String) :=
  (buildPhase input).ownerMap

/-! ### `ProcessInferenceService.generateHeuristicFlow` and the drill-down
fallback chain of `BlockManager`'s webview message handler -/

/-- A `ProcessNode` of `ProcessInferenceService` (`description` is always set
by the heuristic generator; `""` models an absent description elsewhere). -/
structure FlowNode where
  id : String
  label : String
  type : String
  files : List String
  description : String
deriving DecidableEq, Repr

structure FlowEdge where
  source : String
  target : String
  label : String
deriving DecidableEq, Repr

/-- `ProcessGraphData`. -/
structure FlowData where
  nodes : List FlowNode
  edges : List FlowEdge
deriving DecidableEq, Repr

/-- The loop body of `generateHeuristicFlow`:
`filePaths.slice(0, 5).forEach((fp, index) => ...)`, threading `previousId`.
`asRel` models `vscode.workspace.asRelativePath`; the step label uses
`asRel(fp).split('/').pop() || 'File'` (an empty last segment is falsy).
Returns the pushed nodes, the pushed edges and the final `previousId`. -/
def heuristicSteps (asRel : String → String) :
    Nat → List String → String → List FlowNode × List FlowEdge × String
  | _, [], previousId => ([], [], previousId)
  | index, fp :: rest, previousId =>
    let name0 := ((asRel fp).splitOn "/").getLastD ""
    let name := if name0 = "" then "File" else name0
    let id := "step_" ++ toString index
    let node : FlowNode :=
      { id := id, label := "Execute " ++ name, type := "process",
        files := [fp], description := "Process Logic Step" }
    let edge : FlowEdge :=
      { source := previousId, target := id,
        label := if index = 0 then "init" else "next" }
    let r := heuristicSteps asRel (index + 1) rest id
    (node :: r.1, edge :: r.2.1, r.2.2)

/-- The synthetic start node. -/
def heuristicStartNode (label : String) : FlowNode :=
  { id := "start", label := "Start " ++ label, type := "start", files := [],
    description := "Process Initiation" }

/-- The synthetic end node. -/
def heuristicEndNode : FlowNode :=
  { id := "end", label := "End Process", type := "end", files := [],
    description := "Completion" }

/-- `generateHeuristicFlow(filePaths, label)`: start node, one process node
per file (first 5), linear chain of edges, end node. -/
def generateHeuristicFlow (asRel : String → String) (filePaths : List String)
    (label : String) : FlowData :=
  let r := heuristicSteps asRel 0 (filePaths.take 5) "start"
  { nodes := heuristicStartNode label :: r.1 ++ [heuristicEndNode],
    edges := r.2.1 ++ [{ source := r.2.2, target := "end", label := "finish" }] }

/-- Which view the system-node drill-down handler of `BlockManager` publishes
(the graphs are tagged with the request id and posted; we record only the
chosen branch and its payload). -/
inductive DrillView : Type
  | aiFlow (data : FlowData)
  | heuristicFlow (data : FlowData)
  | componentView
deriving DecidableEq, Repr

/-- The fallback half of the system-node branch: try the heuristic flow; only
if it has zero nodes fall through to the component graph. -/
def heuristicOrComponent (asRel : String → String) (filePaths : List String)
    (label : String) : DrillView :=
  -- generateHeuristicFlow(filePaths, label || 'Process')
  let heuristicData :=
    generateHeuristicFlow asRel filePaths (if label = "" then "Process" else label)
  if heuristicData.nodes.length > 0 then .heuristicFlow heuristicData
  else .componentView

/-- The system-node branch of `CallGraphPanel.onMessage`'s drill-down handler:
use the inference collaborator's subsystem flow when it produced more than one
node, otherwise fall back (`generateSubsystemFlow` returning `null` is
`none`). -/
def systemDrillView (asRel : String → String) (subsystemData : Option FlowData)
    (filePaths : List String) (label : String) : DrillView :=
  match subsystemData with
  | some d =>
    if d.nodes.length > 1 then .aiFlow d
    else heuristicOrComponent asRel filePaths label
  | none => heuristicOrComponent asRel filePaths label

/-! ### The webview frontend (`CallGraphContent`)

State and handlers of the React component.  `expandedIds` (the React state)
and `expandedIdsRef` are written together at every site that updates them, so
a single field represents both.  Pixel positions computed by dagre are not
modelled; of the layout result we keep, per node, the `hidden` flag (a node is
laid out iff it is visible).  Side effects that leave the webview
(`postMessage`, `jumpTo`, `fetchCode`) are not part of the state. -/

/-- A frontend graph node (`type = ""` models an absent/undefined type, which
is falsy under `n.type || 'process'`). -/
structure WNode where
  id : String
  type : String
  parentNode : Option String
  /-- `data.label`. -/
  label : String
  /-- `data.description` (`""` when absent). -/
  description : String
  /-- `data.files` (`[]` when absent). -/
  files : List String
  /-- `data.type` (normalized together with `type`). -/
  dataType : String
deriving DecidableEq, Repr

/-- A frontend edge; fields other than the endpoints are passed through
untouched by the modelled logic. -/
structure WEdge where
  id : String
  source : String
  target : String
deriving DecidableEq, Repr

/-- The frontend data normalization applied to every inbound node:
`(n.type || 'process').toLowerCase()`, coerced to `'process'` when unknown,
written to both `type` and `data.type`. -/
def knownNodeTypes : List String :=
  ["group", "component", "system", "process", "decision", "start", "end"]

def safeNode (n : WNode) : WNode :=
  let t := jsToLower (if n.type = "" then "process" else n.type)
  let t' := if t ∈ knownNodeTypes then t else "process"
  { n with type := t', dataType := t' }

/-- Step 1 of `getLayoutedElements`: the visible-node set.  A node is added
iff it has no parent, or its **direct** parent is in `expandedIds` (the code
comment reads "Check if all ancestors are expanded / For now, just direct
parent."). -/
def visibleNodes (nodes : List WNode) (expandedIds : List String) : List String :=
  nodes.foldl
    (fun acc n =>
      match n.parentNode with
      | none => setAdd acc n.id
      | some p => if p ∈ expandedIds then setAdd acc n.id else acc)
    []

/-- A node of the layout result: the node plus its `hidden` flag (dagre
coordinates omitted). -/
structure LNode where
  node : WNode
  hidden : Bool
deriving DecidableEq, Repr

/-- `getLayoutedElements(nodes, edges, direction, expandedIds)` restricted to
the structural part: every node is returned, marked `hidden` exactly when it
is not in the visible set; the edge list is returned unchanged. -/
def getLayoutedElements (nodes : List WNode) (edges : List WEdge)
    (expandedIds : List String) : List LNode × List WEdge :=
  let vis := visibleNodes nodes expandedIds
  (nodes.map (fun n => { node := n, hidden := ¬(n.id ∈ vis) }), edges)

/-- A saved navigation snapshot (`{ nodes: rawNodes, edges: rawEdges, label:
currentLabel }`). -/
structure ViewFrame where
  nodes : List WNode
  edges : List WEdge
  label : String
deriving DecidableEq, Repr

/-- The component state of `CallGraphContent` (pushes append to the end of
`viewStack`; "back" drops the last element). -/
structure FState where
  /-- `activeRequestId.current` (a ref: always read fresh). -/
  activeRequestId : Option String
  viewStack : List ViewFrame
  rawNodes : List WNode
  rawEdges : List WEdge
  /-- `expandedIds` state and `expandedIdsRef.current`. -/
  expandedIds : List String
  currentLabel : String
  /-- the layouted `nodes` state (`triggerLayout` output). -/
  layoutNodes : List LNode
  layoutEdges : List WEdge
  isLoading : Bool
deriving DecidableEq, Repr

/-- An inbound `updateGraph` message; `requestId = none` models a background
update that carries no token. -/
structure UpdateMsg where
  requestId : Option String
  nodes : List WNode
  edges : List WEdge
deriving DecidableEq, Repr

/-- The accepting path of the `updateGraph` handler: normalize, store the raw
graph, auto-expand a sole root when nothing is expanded yet, re-layout. -/
def applyUpdate (s : FState) (m : UpdateMsg) : FState :=
  let safe := m.nodes.map safeNode
  let roots := safe.filter (fun n => n.parentNode = none)
  let nextExpanded :=
    match roots, s.expandedIds with
    | [r], [] => setAdd [] r.id
    | _, _ => s.expandedIds
  let layout := getLayoutedElements safe m.edges nextExpanded
  { s with isLoading := false, rawNodes := safe, rawEdges := m.edges,
           expandedIds := nextExpanded,
           layoutNodes := layout.1, layoutEdges := layout.2 }

/-- The guard of the `updateGraph` handler.  `activeRequestId` and
`expandedIdsRef` are refs and are read fresh; `viewStack`, however, is React
state captured by the listener's closure.  The listener is registered once in
an effect with an empty dependency array, so the `viewStack` value it reads is
the one from the mount-time render — `viewStackAtMount` — not the current
stack. -/
def handleUpdateMsg (viewStackAtMount : List ViewFrame) (s : FState)
    (m : UpdateMsg) : FState :=
  match s.activeRequestId with
  | some active =>
    -- STRICT FILTER: only accept updates matching the active id
    if m.requestId ≠ some active then s else applyUpdate s m
  | none =>
    if viewStackAtMount.length > 0 then s else applyUpdate s m

/-- The listener actually installed: its captured `viewStack` is the initial
(empty) array. -/
def handleMessage (s : FState) (m : UpdateMsg) : FState :=
  handleUpdateMsg [] s m

/-- `goBack`: cancel the pending request, restore the last saved frame
verbatim, re-layout it with an empty expansion set, pop the stack.  (The
`expandedIds` state/ref is not written here.) -/
def goBack (s : FState) : FState :=
  match s.viewStack.getLast? with
  | none => s
  | some prev =>
    let layout := getLayoutedElements prev.nodes prev.edges []
    { s with activeRequestId := none,
             rawNodes := prev.nodes, rawEdges := prev.edges,
             layoutNodes := layout.1, layoutEdges := layout.2,
             viewStack := s.viewStack.dropLast,
             currentLabel := prev.label }

/-- `onNodeDoubleClick` (the state-changing part; `jumpTo`/`postMessage` side
effects not modelled).  `token` is the fresh `Date.now().toString()` request
id generated in the drill-down branch. -/
def onNodeDoubleClick (s : FState) (node : WNode) (token : String) : FState :=
  if node.type = "system" ∨ node.type = "process" then
    if node.files = [] then s
    else
      { s with
        viewStack := s.viewStack ++
          [{ nodes := s.rawNodes, edges := s.rawEdges, label := s.currentLabel }],
        currentLabel := node.label,
        activeRequestId := some token,
        isLoading := true }
  else if node.type = "group" then
    let newExpanded :=
      if node.id ∈ s.expandedIds then s.expandedIds.filter (· ≠ node.id)
      else setAdd s.expandedIds node.id
    let layout := getLayoutedElements s.rawNodes s.rawEdges newExpanded
    { s with expandedIds := newExpanded,
             layoutNodes := layout.1, layoutEdges := layout.2 }
  else s

/-- Modelled from the spec for comparison with the code (claim C5): "a node's
ancestors must all individually be in `expanded` for it to be reachable,
computed by walking the parent chain".  `ancestorIds` walks the parent chain
(with fuel `nodes.length`, enough for any acyclic chain); `chainReachable`
demands every ancestor be expanded. -/
def ancestorIds (nodes : List WNode) : Nat → Option String → List String
  | _, none => []
  | 0, some _ => []
  | fuel + 1, some pid =>
    pid ::
      (match nodes.find? (fun n => n.id = pid) with
       | none => []
       | some pn => ancestorIds nodes fuel pn.parentNode)

/-- Modelled from the spec (claim C5): reachability via the full parent
chain. -/
def chainReachable (nodes : List WNode) (expandedIds : List String)
    (n : WNode) : Bool :=
  (ancestorIds nodes nodes.length n.parentNode).all
    (fun a => expandedIds.contains a)

/-! ### Derived views of the call-aggregation pipeline

`resolvedCalls` lists, in program order, the cross-owner calls that survive
every guard of `_aggregateOutgoingCalls`; the lemmas below show the edge map
is exactly the bump-fold of this list. -/

/-- Resolution of one reported call from a symbol whose owner is
`sourceOwnerId`: the ordered owner pair and the call description, when the
target resolves through the reverse index to a known node with a known,
different owner. -/
def resolveCall (nodeIdMap ownerMap : List (String × String)) (s : Sym)
    (sourceOwnerId : String) (call : OutCall) :
    Option ((String × String) × String) :=
  match mapGet nodeIdMap (call.targetUri ++ ":" ++ toString call.targetSelLine) with
  | none => none
  | some targetNodeId =>
    match mapGet ownerMap targetNodeId with
    | none => none
    | some targetOwnerId =>
      if sourceOwnerId ≠ targetOwnerId then
        some ((sourceOwnerId, targetOwnerId), s.name ++ " -> " ++ call.targetName)
      else none

/-- The resolved cross-owner calls contributed by one scheduled symbol. -/
def symbolCallTriples (oracle : CallOracle)
    (nodeIdMap ownerMap : List (String × String)) (uri : String) (s : Sym)
    (symbolId : String) : List ((String × String) × String) :=
  match mapGet ownerMap symbolId with
  | none => []
  | some sourceOwnerId =>
    if s.kind ≠ .method ∧ s.kind ≠ .function then []
    else (oracle uri s.selLine).filterMap (resolveCall nodeIdMap ownerMap s sourceOwnerId)

/-- All resolved cross-owner calls of one `generateGraph` run, in program
order. -/
def resolvedCalls (input : GenInput) (oracle : CallOracle) :
    List ((String × String) × String) :=
  (callVisitPhase input).order.flatMap
    (fun t => symbolCallTriples oracle (callVisitPhase input).nodeIdMap
      (buildPhase input).ownerMap t.1 t.2.1 t.2.2)

/-- Folding a list of resolved calls into an edge map. -/
def foldBump (l : List ((String × String) × String)) (em : EdgeMap) : EdgeMap :=
  l.foldl (fun em t => bumpEdge em t.1 t.2) em

/-- The correctness invariant tying an edge map to the list of resolved calls
already folded into it: keys are unique, each entry's `count` is the number of
resolved calls for its ordered pair, its `calls` set holds exactly the
distinct descriptions seen for the pair, and pairs without entries saw no
calls. -/
def EdgeMapMatches (processed : List ((String × String) × String))
    (em : EdgeMap) : Prop :=
  (em.map Prod.fst).Nodup ∧
  ∀ p : String × String,
    (∀ meta, mapGet em p = some meta →
      meta.count = processed.countP (fun t => decide (t.1 = p)) ∧
      meta.calls.Nodup ∧
      (∀ d, d ∈ meta.calls ↔ (p, d) ∈ processed) ∧
      0 < meta.count) ∧
    (mapGet em p = none → processed.countP (fun t => decide (t.1 = p)) = 0)

/-- The multiset of edge weights of an edge map. -/
def edgeWeights (em : EdgeMap) : Multiset Nat :=
  (em.map (fun pm => pm.2.count) : List Nat)

/-- The container a file's top-level nodes get parented to in
`generateGraph`'s first pass, for a batch whose first file it is: its semantic
module group if the semantic map assigns one, else the virtual root when a
root label is given, else no parent. -/
def fileParentIn (sm : Option (List (String × String)))
    (virtualRootLabel : Option String) (fsPath : String) : Option String :=
  match sm with
  | some m =>
    match mapGet m fsPath with
    | some moduleName => some (moduleGroupId moduleName)
    | none => if virtualRootLabel.isSome then some rootId else none
  | none => if virtualRootLabel.isSome then some rootId else none

/-- The consecutive pairs of a list: the single linear chain through its
elements. -/
def chainPairs (ids : List String) : List (String × String) :=
  ids.zip ids.tail

/-! ### Concrete example inputs used by counterexamples and witnesses -/

/-- A class whose method contains a nested function: `class C { m() { function g } }`. -/
def c1FnG : Sym := .mk "g" .function 2 2 "" .nil

def c1MethodM : Sym := .mk "m" .method 1 1 "" (.cons c1FnG .nil)

def c1ClassC : Sym := .mk "C" .classKind 0 0 "" (.cons c1MethodM .nil)

/-- A top-level function `h` in the same file. -/
def c1FnH : Sym := .mk "h" .function 10 10 "" .nil

def c1File : FileInput :=
  { uri := "file:///a.ts", fsPath := "/a.ts", symbols := .cons c1ClassC (.cons c1FnH .nil) }

def c1Input : GenInput :=
  { files := [c1File], semanticMap := none, virtualRootLabel := none,
    includeFiles := true }

/-- The call-hierarchy collaborator reports one outgoing call from the nested
function `g` (selection line 2) to the top-level function `h` (line 10). -/
def c1Oracle : CallOracle := fun uri line =>
  if uri = "file:///a.ts" ∧ line = 2 then [⟨"file:///a.ts", 10, "h"⟩] else []

/-- Two single-function files for the aggregation witnesses: `f` in `a.ts`
calls `g` in `b.ts` twice. -/
def w2FnF : Sym := .mk "f" .function 0 0 "" .nil

def w2FnG : Sym := .mk "g" .function 0 0 "" .nil

def w2FileA : FileInput :=
  { uri := "file:///a.ts", fsPath := "/a.ts", symbols := .cons w2FnF .nil }

def w2FileB : FileInput :=
  { uri := "file:///b.ts", fsPath := "/b.ts", symbols := .cons w2FnG .nil }

def w2Input : GenInput :=
  { files := [w2FileA, w2FileB], semanticMap := none, virtualRootLabel := none,
    includeFiles := true }

def w2Oracle : CallOracle := fun uri line =>
  if uri = "file:///a.ts" ∧ line = 0 then
    [⟨"file:///b.ts", 0, "g"⟩, ⟨"file:///b.ts", 0, "g"⟩]
  else []

/-- The initial frontend component state. -/
def initialFState : FState :=
  { activeRequestId := none, viewStack := [], rawNodes := [], rawEdges := [],
    expandedIds := [], currentLabel := "System Overview", layoutNodes := [],
    layoutEdges := [], isLoading := true }

/-- A drillable system node (top-level view). -/
def cexSysNode : WNode :=
  { id := "sys1", type := "system", parentNode := none, label := "Backend",
    description := "", files := ["a.ts"], dataType := "system" }

/-- A second drillable system node (drilled view). -/
def cexSysNode2 : WNode :=
  { id := "sys2", type := "system", parentNode := none, label := "Auth",
    description := "", files := ["b.ts"], dataType := "system" }

/-- A leaf component node (deepest view). -/
def cexCompNode : WNode :=
  { id := "comp1", type := "component", parentNode := none, label := "Svc",
    description := "", files := [], dataType := "component" }

/-- A node arriving with a tokenless background refresh. -/
def cexBgNode : WNode :=
  { id := "bg1", type := "system", parentNode := none, label := "Fresh scan",
    description := "", files := ["c.ts"], dataType := "system" }

/-- The concrete frontend run behind the C4 counterexample: initial load (one
root, auto-expanded), drill into it, apply the drill response, go back. -/
def c4Trace : FState :=
  let s1 := handleMessage initialFState ⟨none, [cexSysNode], []⟩
  let s2 := onNodeDoubleClick s1 cexSysNode "T1"
  let s3 := handleMessage s2 ⟨some "T1", [cexCompNode], []⟩
  goBack s3

/-- The concrete frontend run behind the C7 bug witness: initial load, drill
twice (two stacked frames), apply both responses, go back once (stack still
non-empty, token cleared), then a tokenless background update arrives. -/
def c7TraceBeforeBg : FState :=
  let s1 := handleMessage initialFState ⟨none, [cexSysNode], []⟩
  let s2 := onNodeDoubleClick s1 cexSysNode "T1"
  let s3 := handleMessage s2 ⟨some "T1", [cexSysNode2], []⟩
  let s4 := onNodeDoubleClick s3 cexSysNode2 "T2"
  let s5 := handleMessage s4 ⟨some "T2", [cexCompNode], []⟩
  goBack s5

def c7TraceAfterBg : FState :=
  handleMessage c7TraceBeforeBg ⟨none, [cexBgNode], []⟩

/-- The three-level parent chain `root → group → leaf` of the layout
visibility example. -/
def chainRootNode : WNode :=
  { id := "root", type := "group", parentNode := none, label := "root",
    description := "", files := [], dataType := "group" }

def chainGroupNode : WNode :=
  { id := "group", type := "group", parentNode := some "root", label := "group",
    description := "", files := [], dataType := "group" }

def chainLeafNode : WNode :=
  { id := "leaf", type := "component", parentNode := some "group",
    label := "leaf", description := "", files := [], dataType := "component" }

def threeLevelChain : List WNode :=
  [chainRootNode, chainGroupNode, chainLeafNode]

/-! ## Theorems -/

/-! ### Basic lemmas about the JS map/set model -/

theorem mapGet_append_of_none {κ α : Type} [DecidableEq κ] {m₁ : List (κ × α)}
    (m₂ : List (κ × α)) {k : κ} (h : mapGet m₁ k = none) :
    mapGet (m₁ ++ m₂) k = mapGet m₂ k := by
  induction m₁ with
  | nil => rfl
  | cons p m ih =>
    obtain ⟨a, b⟩ := p
    by_cases ha : a = k
    · simp [mapGet, ha] at h
    · simp only [mapGet, ha, if_false] at h
      simp only [List.cons_append, mapGet, ha, if_false]
      exact ih h

theorem mapGet_append_of_some {κ α : Type} [DecidableEq κ] {m₁ : List (κ × α)}
    (m₂ : List (κ × α)) {k : κ} {v : α} (h : mapGet m₁ k = some v) :
    mapGet (m₁ ++ m₂) k = some v := by
  induction m₁ with
  | nil => simp [mapGet] at h
  | cons p m ih =>
    obtain ⟨a, b⟩ := p
    by_cases ha : a = k
    · simp only [mapGet, ha, if_true, Option.some.injEq] at h
      simp [mapGet, ha, h]
    · simp only [mapGet, ha, if_false] at h
      simp only [List.cons_append, mapGet, ha, if_false]
      exact ih h

theorem mapGet_eq_none_iff {κ α : Type} [DecidableEq κ] (m : List (κ × α))
    (k : κ) : mapGet m k = none ↔ k ∉ m.map Prod.fst := by
  induction m with
  | nil => simp
  | cons p m ih =>
    obtain ⟨a, b⟩ := p
    by_cases ha : a = k <;> simp [mapGet, ha, ih, Ne.symm]

theorem mapGet_map_replace_ne {κ α : Type} [DecidableEq κ] (m : List (κ × α))
    (k q : κ) (v : α) (h : k ≠ q) :
    mapGet (m.map (fun p => if p.1 = k then (k, v) else p)) q = mapGet m q := by
  induction m with
  | nil => rfl
  | cons p m ih =>
    obtain ⟨a, b⟩ := p
    simp only [List.map_cons]
    by_cases ha : a = k
    · rw [show ((if (a, b).1 = k then (k, v) else (a, b)) : κ × α) = (k, v) from
        if_pos ha]
      have haq : a ≠ q := by rw [ha]; exact h
      rw [mapGet_cons, mapGet_cons, if_neg h, if_neg haq]
      exact ih
    · rw [show ((if (a, b).1 = k then (k, v) else (a, b)) : κ × α) = (a, b) from
        if_neg ha]
      rw [mapGet_cons, mapGet_cons]
      by_cases haq : a = q
      · rw [if_pos haq, if_pos haq]
      · rw [if_neg haq, if_neg haq]
        exact ih

theorem mapGet_map_replace_self {κ α : Type} [DecidableEq κ] (m : List (κ × α))
    (k : κ) (v : α) (h : (mapGet m k).isSome) :
    mapGet (m.map (fun p => if p.1 = k then (k, v) else p)) k = some v := by
  induction m with
  | nil => simp [mapGet] at h
  | cons p m ih =>
    obtain ⟨a, b⟩ := p
    simp only [List.map_cons]
    by_cases ha : a = k
    · rw [show ((if (a, b).1 = k then (k, v) else (a, b)) : κ × α) = (k, v) from
        if_pos ha]
      rw [mapGet_cons, if_pos rfl]
    · rw [show ((if (a, b).1 = k then (k, v) else (a, b)) : κ × α) = (a, b) from
        if_neg ha]
      rw [mapGet_cons, if_neg ha]
      rw [mapGet_cons, if_neg ha] at h
      exact ih h

theorem mapGet_mapSet {κ α : Type} [DecidableEq κ] (m : List (κ × α))
    (k q : κ) (v : α) :
    mapGet (mapSet m k v) q = if k = q then some v else mapGet m q := by
  unfold mapSet
  by_cases hk : (mapGet m k).isSome
  · rw [if_pos hk]
    by_cases hq : k = q
    · subst hq; rw [if_pos rfl, mapGet_map_replace_self m k v hk]
    · rw [if_neg hq, mapGet_map_replace_ne m k q v hq]
  · have hk' : mapGet m k = none := by
      cases h : mapGet m k
      · rfl
      · rw [h] at hk; simp at hk
    rw [if_neg hk]
    by_cases hq : k = q
    · subst hq
      rw [mapGet_append_of_none _ hk', if_pos rfl]
      simp [mapGet]
    · rw [if_neg hq]
      cases hmq : mapGet m q with
      | none =>
        rw [mapGet_append_of_none _ hmq]
        simp [mapGet, hq]
      | some w => rw [mapGet_append_of_some _ hmq]

theorem mapSet_keys_of_some {κ α : Type} [DecidableEq κ] (m : List (κ × α))
    (k : κ) (v : α) (h : (mapGet m k).isSome) :
    (mapSet m k v).map Prod.fst = m.map Prod.fst := by
  unfold mapSet
  rw [if_pos h, List.map_map]
  refine List.map_congr_left (fun p _ => ?_)
  by_cases hp : p.1 = k <;> simp [hp]

theorem mapSet_keys_of_none {κ α : Type} [DecidableEq κ] (m : List (κ × α))
    (k : κ) (v : α) (h : mapGet m k = none) :
    (mapSet m k v).map Prod.fst = m.map Prod.fst ++ [k] := by
  unfold mapSet
  rw [h]
  simp

theorem mem_setAdd {α : Type} [DecidableEq α] (s : List α) (x y : α) :
    y ∈ setAdd s x ↔ y ∈ s ∨ y = x := by
  unfold setAdd
  by_cases h : x ∈ s
  · rw [if_pos h]
    exact ⟨Or.inl, fun h' => h'.elim id (fun e => e ▸ h)⟩
  · rw [if_neg h]
    simp

theorem setAdd_nodup {α : Type} [DecidableEq α] (s : List α) (x : α)
    (h : s.Nodup) : (setAdd s x).Nodup := by
  unfold setAdd
  by_cases hx : x ∈ s
  · simpa [hx]
  · simp [hx, List.nodup_append, h]

/-! ### C5: compound-layout visibility -/

theorem mem_visibleNodes_go (expandedIds : List String) (nodes : List WNode)
    (acc : List String) (i : String) :
    i ∈ nodes.foldl
        (fun acc n =>
          match n.parentNode with
          | none => setAdd acc n.id
          | some p => if p ∈ expandedIds then setAdd acc n.id else acc) acc ↔
      i ∈ acc ∨ ∃ n ∈ nodes, n.id = i ∧
        (n.parentNode = none ∨ ∃ p, n.parentNode = some p ∧ p ∈ expandedIds) := by
  induction nodes generalizing acc with
  | nil => simp
  | cons n ns ih =>
    simp only [List.foldl_cons]
    rw [ih]
    cases hp : n.parentNode with
    | none =>
      simp only [hp, mem_setAdd]
      constructor
      · rintro ((h | h) | h)
        · exact Or.inl h
        · exact Or.inr ⟨n, List.mem_cons_self n ns, h.symm, Or.inl hp⟩
        · obtain ⟨m, hm, hmi⟩ := h
          exact Or.inr ⟨m, List.mem_cons_of_mem n hm, hmi⟩
      · rintro (h | ⟨m, hm, hmi, hmp⟩)
        · exact Or.inl (Or.inl h)
        · rcases List.mem_cons.mp hm with rfl | hm'
          · exact Or.inl (Or.inr hmi.symm)
          · exact Or.inr ⟨m, hm', hmi, hmp⟩
    | some p =>
      by_cases hpe : p ∈ expandedIds
      · simp only [hp, if_pos hpe, mem_setAdd]
        constructor
        · rintro ((h | h) | h)
          · exact Or.inl h
          · exact Or.inr ⟨n, List.mem_cons_self n ns, h.symm, Or.inr ⟨p, hp, hpe⟩⟩
          · obtain ⟨m, hm, hmi⟩ := h
            exact Or.inr ⟨m, List.mem_cons_of_mem n hm, hmi⟩
        · rintro (h | ⟨m, hm, hmi, hmp⟩)
          · exact Or.inl (Or.inl h)
          · rcases List.mem_cons.mp hm with rfl | hm'
            · exact Or.inl (Or.inr hmi.symm)
            · exact Or.inr ⟨m, hm', hmi, hmp⟩
      · simp only [hp, if_neg hpe]
        constructor
        · rintro (h | h)
          · exact Or.inl h
          · obtain ⟨m, hm, hmi⟩ := h
            exact Or.inr ⟨m, List.mem_cons_of_mem n hm, hmi⟩
        · rintro (h | ⟨m, hm, hmi, hmp⟩)
          · exact Or.inl h
          · rcases List.mem_cons.mp hm with rfl | hm'
            · rcases hmp with hnone | ⟨q, hq, hqe⟩
              · rw [hp] at hnone; cases hnone
              · rw [hp] at hq
                cases Option.some.inj hq
                exact absurd hqe hpe
            · exact Or.inr ⟨m, hm', hmi, hmp⟩

theorem mem_visibleNodes (nodes : List WNode) (expandedIds : List String)
    (i : String) :
    i ∈ visibleNodes nodes expandedIds ↔
      ∃ n ∈ nodes, n.id = i ∧
        (n.parentNode = none ∨ ∃ p, n.parentNode = some p ∧ p ∈ expandedIds) := by
  unfold visibleNodes
  rw [mem_visibleNodes_go]
  simp

/-- **C5** (amended): in the compound layout a node is visible iff it has no
parent or its **direct** parent is in the expanded set — only the direct
parent is consulted, no ancestor chain is walked — and in the three-level
chain `root → group → leaf` with `expanded = {root}`, `leaf` is not visible,
while adding `group` makes `leaf` visible. -/
theorem layout_visibility_direct_parent (nodes : List WNode)
    (expandedIds : List String) (i : String) :
    (i ∈ visibleNodes nodes expandedIds ↔
      ∃ n ∈ nodes, n.id = i ∧
        (n.parentNode = none ∨ ∃ p, n.parentNode = some p ∧ p ∈ expandedIds)) ∧
    "leaf" ∉ visibleNodes threeLevelChain ["root"] ∧
    "leaf" ∈ visibleNodes threeLevelChain ["root", "group"] :=
  ⟨mem_visibleNodes nodes expandedIds i, by decide, by decide⟩

/-- **C5** counterexample: with `expanded = {group}` (the ancestor `root` not
expanded), the code still treats `leaf` as visible and lays it out un-hidden —
visibility is decided by the direct parent only, not by walking the parent
chain, so the claim's "every one of its ancestors must individually be in the
expanded set for it to be reachable" is false of the code. -/
theorem layout_visibility_not_chain_walk :
    "leaf" ∈ visibleNodes threeLevelChain ["group"] ∧
    (getLayoutedElements threeLevelChain [] ["group"]).1 =
      [⟨chainRootNode, false⟩, ⟨chainGroupNode, true⟩, ⟨chainLeafNode, false⟩] ∧
    chainReachable threeLevelChain ["group"] chainLeafNode = false := by decide

/-! ### C3, C4, C7: the drill-down protocol of the webview frontend -/

theorem onNodeDoubleClick_drill (s : FState) (node : WNode) (token : String)
    (h1 : node.type = "system" ∨ node.type = "process") (h2 : node.files ≠ []) :
    onNodeDoubleClick s node token =
      { s with
        viewStack := s.viewStack ++ [⟨s.rawNodes, s.rawEdges, s.currentLabel⟩],
        currentLabel := node.label,
        activeRequestId := some token,
        isLoading := true } := by
  unfold onNodeDoubleClick
  rw [if_pos h1, if_neg h2]

theorem handleMessage_mismatch (s : FState) (m : UpdateMsg) (t : String)
    (hs : s.activeRequestId = some t) (hm : m.requestId ≠ some t) :
    handleMessage s m = s := by
  unfold handleMessage handleUpdateMsg
  rw [hs]
  simp [hm]

theorem handleMessage_match (s : FState) (m : UpdateMsg) (t : String)
    (hs : s.activeRequestId = some t) (hm : m.requestId = some t) :
    handleMessage s m = applyUpdate s m := by
  unfold handleMessage handleUpdateMsg
  rw [hs]
  simp [hm]

/-- **C3**: if drill-down `t1` is issued and, before its response arrives,
drill-down `t2` is issued (making `t2` the sole active token), then `t1`'s
response is discarded unconditionally (the state is unchanged) and `t2`'s
response is applied: the displayed raw graph and layout in the end state come
from `t2`'s response only. -/
theorem drill_race_stale_discarded (s : FState) (n1 n2 : WNode) (t1 t2 : String)
    (g1 g2 : UpdateMsg)
    (hn1 : n1.type = "system" ∨ n1.type = "process") (hf1 : n1.files ≠ [])
    (hn2 : n2.type = "system" ∨ n2.type = "process") (hf2 : n2.files ≠ [])
    (ht : t1 ≠ t2) (hg1 : g1.requestId = some t1) (hg2 : g2.requestId = some t2) :
    handleMessage (onNodeDoubleClick (onNodeDoubleClick s n1 t1) n2 t2) g1 =
      onNodeDoubleClick (onNodeDoubleClick s n1 t1) n2 t2 ∧
    (handleMessage (handleMessage
        (onNodeDoubleClick (onNodeDoubleClick s n1 t1) n2 t2) g1) g2).rawNodes
      = g2.nodes.map safeNode ∧
    (handleMessage (handleMessage
        (onNodeDoubleClick (onNodeDoubleClick s n1 t1) n2 t2) g1) g2).rawEdges
      = g2.edges ∧
    (handleMessage (handleMessage
        (onNodeDoubleClick (onNodeDoubleClick s n1 t1) n2 t2) g1) g2).layoutNodes
      = (getLayoutedElements (g2.nodes.map safeNode) g2.edges
          (handleMessage (handleMessage
            (onNodeDoubleClick (onNodeDoubleClick s n1 t1) n2 t2) g1) g2).expandedIds).1 := by
  have e2 := onNodeDoubleClick_drill (onNodeDoubleClick s n1 t1) n2 t2 hn2 hf2
  have hact : (onNodeDoubleClick (onNodeDoubleClick s n1 t1) n2 t2).activeRequestId
      = some t2 := by rw [e2]
  have hm1 : g1.requestId ≠ some t2 := by
    rw [hg1]
    intro hcon
    exact ht (Option.some.inj hcon)
  have hdisc := handleMessage_mismatch _ g1 t2 hact hm1
  refine ⟨hdisc, ?_, ?_, ?_⟩ <;>
    rw [hdisc, handleMessage_match _ g2 t2 hact hg2] <;>
    rfl

/-- **C3** witness at a concrete race. -/
theorem drill_race_stale_discarded_witness :
    (handleMessage (handleMessage
        (onNodeDoubleClick (onNodeDoubleClick initialFState cexSysNode "T1")
          cexSysNode2 "T2")
        ⟨some "T1", [cexCompNode], []⟩)
      ⟨some "T2", [cexBgNode], []⟩).rawNodes = [safeNode cexBgNode] := by
  have h := drill_race_stale_discarded initialFState cexSysNode cexSysNode2
    "T1" "T2" ⟨some "T1", [cexCompNode], []⟩ ⟨some "T2", [cexBgNode], []⟩
    (by decide) (by decide) (by decide) (by decide) (by decide) rfl rfl
  simpa using h.2.1

/-- **C4** (amended): "back" pops the top `ViewFrame`, restores its nodes and
edges exactly as saved, clears the active request token, and recomputes the
layout with an **empty** expansion set — but the persistent expanded-id
state/ref itself is left unchanged, not reset. -/
theorem goBack_restores_and_clears_token (s : FState) (prev : ViewFrame)
    (h : s.viewStack.getLast? = some prev) :
    (goBack s).activeRequestId = none ∧
    (goBack s).rawNodes = prev.nodes ∧
    (goBack s).rawEdges = prev.edges ∧
    (goBack s).layoutNodes = (getLayoutedElements prev.nodes prev.edges []).1 ∧
    (goBack s).layoutEdges = (getLayoutedElements prev.nodes prev.edges []).2 ∧
    (goBack s).viewStack = s.viewStack.dropLast ∧
    (goBack s).currentLabel = prev.label ∧
    (goBack s).expandedIds = s.expandedIds := by
  unfold goBack
  rw [h]
  exact ⟨rfl, rfl, rfl, rfl, rfl, rfl, rfl, rfl⟩

/-- **C4** witness at a concrete drill-and-back run. -/
theorem goBack_restores_and_clears_token_witness :
    (goBack (onNodeDoubleClick (handleMessage initialFState
        ⟨none, [cexSysNode], []⟩) cexSysNode "T1")).rawNodes = [cexSysNode] := by
  have h := goBack_restores_and_clears_token
    (onNodeDoubleClick (handleMessage initialFState ⟨none, [cexSysNode], []⟩)
      cexSysNode "T1")
    ⟨[cexSysNode], [], "System Overview"⟩ (by decide)
  exact h.2.1

/-- **C4** counterexample: after drilling from the auto-expanded overview into
a drilled view and invoking "back", the expanded-id set still contains the old
root id — the claim's "resets the ExpansionState (the set of expanded node
ids) to empty" is false of the code (`goBack` passes a fresh empty set to the
layout but never writes `expandedIds`/`expandedIdsRef`). -/
theorem goBack_expansion_not_reset :
    c4Trace.rawNodes = [cexSysNode] ∧
    c4Trace.activeRequestId = none ∧
    c4Trace.expandedIds = ["sys1"] ∧
    c4Trace.expandedIds ≠ [] := by decide

/-- **C7** (bug witness): after drilling twice and going back once the stack
still holds a frame and no token is active; a tokenless background update then
arrives and **is applied** (the raw graph becomes the background payload) even
though the navigation stack is non-empty — the suppression check reads the
mount-time (empty) `viewStack` captured by the listener's closure. -/
theorem background_update_applied_with_nonempty_stack :
    c7TraceBeforeBg.activeRequestId = none ∧
    c7TraceBeforeBg.viewStack ≠ [] ∧
    c7TraceAfterBg.rawNodes = [cexBgNode] ∧
    c7TraceAfterBg.rawNodes ≠ c7TraceBeforeBg.rawNodes ∧
    c7TraceAfterBg.viewStack ≠ [] := by decide

/-! ### C8: flattened mode on a file of top-level functions -/

theorem assignOwnerList_nodes (uri owner : String) :
    ∀ (l : SymList) (st : BuildState),
      (assignOwnerList uri owner l st).nodes = st.nodes
  | .nil, st => by rw [assignOwnerList]
  | .cons (Sym.mk n k r sl d cs) rest, st => by
    rw [assignOwnerList, assignOwnerList_nodes uri owner rest,
        assignOwnerList_nodes uri owner cs]
    rfl

theorem processSymbols_flattened_functions (uri fileId systemParentId : String) :
    ∀ (items : SymList),
      (∀ s ∈ items.toList, s.kind = SymbolKind.function) →
      ∀ (st : BuildState) (hc : Bool),
      (processSymbols false uri fileId fileId systemParentId items st hc).1.nodes
        = st.nodes ++ items.toList.map (fun item =>
            topLevelFnNode (symNodeId uri item) systemParentId item) ∧
      (processSymbols false uri fileId fileId systemParentId items st hc).2 = hc
  | .nil, h, st, hc => by simp [processSymbols, SymList.toList]
  | .cons item rest, h, st, hc => by
    have hk : item.kind = SymbolKind.function := h item (by simp [SymList.toList])
    have hrest : ∀ s ∈ rest.toList, s.kind = SymbolKind.function :=
      fun s hs => h s (by simp [SymList.toList, hs])
    rw [processSymbols]
    have ihn := fun st =>
      (processSymbols_flattened_functions uri fileId systemParentId rest hrest st hc).1
    have ihc := fun st =>
      (processSymbols_flattened_functions uri fileId systemParentId rest hrest st hc).2
    simp [hk, ihn, ihc, assignOwnerList_nodes, registerNodeId, SymList.toList,
      List.append_assoc]

theorem processFile_flattened_nodes (sm : Option (List (String × String)))
    (vlabel : Option String) (st : BuildState) (f : FileInput)
    (h : ∀ s ∈ f.symbols.toList, s.kind = SymbolKind.function)
    (hmg : st.moduleGroups = []) :
    (processFile sm vlabel false st f).nodes =
      (st.nodes ++ (match sm with
        | some m =>
          match mapGet m f.fsPath with
          | some moduleName =>
            [moduleGroupNode (moduleGroupId moduleName) moduleName]
          | none => []
        | none => [])) ++
      f.symbols.toList.map (fun s =>
        topLevelFnNode (symNodeId f.uri s)
          ((fileParentIn sm vlabel f.fsPath).getD rootId) s) := by
  unfold processFile
  cases sm with
  | none =>
    have hps := fun st => (processSymbols_flattened_functions f.uri ("file-" ++ f.uri)
      ((if vlabel.isSome then some rootId else none).getD rootId) f.symbols h
      st false).1
    simp [fileParentIn, hps]
  | some m =>
    cases hm : mapGet m f.fsPath with
    | none =>
      have hps := fun st => (processSymbols_flattened_functions f.uri ("file-" ++ f.uri)
        ((if vlabel.isSome then some rootId else none).getD rootId) f.symbols h
        st false).1
      simp [fileParentIn, hm, hps]
    | some moduleName =>
      have hg : mapGet (mapSet ([] : List (String × String)) moduleName
          (moduleGroupId moduleName)) moduleName = some (moduleGroupId moduleName) := by
        rw [mapGet_mapSet, if_pos rfl]
      have hps := fun st => (processSymbols_flattened_functions f.uri ("file-" ++ f.uri)
        (moduleGroupId moduleName) f.symbols h st false).1
      simp [fileParentIn, hm, hmg, hg, hps, List.append_assoc]

theorem buildPhase_flattened_functions (f : FileInput)
    (sm : Option (List (String × String))) (vlabel : Option String)
    (h : ∀ s ∈ f.symbols.toList, s.kind = SymbolKind.function) :
    ∃ pre : List RFNode,
      (buildPhase ⟨[f], sm, vlabel, false⟩).nodes =
        pre ++ f.symbols.toList.map (fun s =>
          topLevelFnNode (symNodeId f.uri s)
            ((fileParentIn sm vlabel f.fsPath).getD rootId) s) ∧
      (∀ n ∈ pre, n.type = "group" ∧ n.dataType = "system") := by
  unfold buildPhase
  simp only [List.foldl_cons, List.foldl_nil]
  cases vlabel with
  | none =>
    refine ⟨[] ++ (match sm with
      | some m =>
        match mapGet m f.fsPath with
        | some moduleName => [moduleGroupNode (moduleGroupId moduleName) moduleName]
        | none => []
      | none => []), processFile_flattened_nodes sm none _ f h rfl, ?_⟩
    cases sm with
    | none => simp
    | some m =>
      cases hm : mapGet m f.fsPath with
      | none => simp [hm]
      | some moduleName => simp [hm, moduleGroupNode]
  | some label =>
    refine ⟨[virtualRootNode label] ++ (match sm with
      | some m =>
        match mapGet m f.fsPath with
        | some moduleName => [moduleGroupNode (moduleGroupId moduleName) moduleName]
        | none => []
      | none => []), processFile_flattened_nodes sm (some label) _ f h rfl, ?_⟩
    cases sm with
    | none => simp [virtualRootNode]
    | some m =>
      cases hm : mapGet m f.fsPath with
      | none => simp [hm, virtualRootNode]
      | some moduleName => simp [hm, virtualRootNode, moduleGroupNode]

/-- **C8**: running graph generation in flattened mode (`includeFiles =
false`) on a file containing only top-level functions (and no classes)
produces exactly one component node per function, each parented directly to
the supplied container (the file's semantic module group, else the virtual
root), and produces no file nodes. -/
theorem flattened_mode_topLevel_functions (f : FileInput)
    (sm : Option (List (String × String))) (vlabel : Option String)
    (oracle : CallOracle)
    (h : ∀ s ∈ f.symbols.toList, s.kind = SymbolKind.function) :
    ((generateGraph ⟨[f], sm, vlabel, false⟩ oracle).nodes.filter
        (fun n => n.type = "component")).length = f.symbols.toList.length ∧
    (∀ n ∈ (generateGraph ⟨[f], sm, vlabel, false⟩ oracle).nodes,
      n.type = "component" →
        n.parentNode = some ((fileParentIn sm vlabel f.fsPath).getD rootId)) ∧
    (∀ n ∈ (generateGraph ⟨[f], sm, vlabel, false⟩ oracle).nodes,
      n.dataType ≠ "file") := by
  obtain ⟨pre, hnodes, hpre⟩ := buildPhase_flattened_functions f sm vlabel h
  have hgen : (generateGraph ⟨[f], sm, vlabel, false⟩ oracle).nodes
      = (buildPhase ⟨[f], sm, vlabel, false⟩).nodes := rfl
  rw [hgen, hnodes]
  refine ⟨?_, ?_, ?_⟩
  · rw [List.filter_append]
    have h1 : pre.filter (fun n => decide (n.type = "component")) = [] := by
      rw [List.filter_eq_nil_iff]
      intro n hn
      simp [(hpre n hn).1]
    have h2 : (f.symbols.toList.map (fun s =>
        topLevelFnNode (symNodeId f.uri s)
          ((fileParentIn sm vlabel f.fsPath).getD rootId) s)).filter
          (fun n => decide (n.type = "component"))
        = f.symbols.toList.map (fun s =>
            topLevelFnNode (symNodeId f.uri s)
              ((fileParentIn sm vlabel f.fsPath).getD rootId) s) := by
      rw [List.filter_eq_self]
      intro n hn
      obtain ⟨s, _, rfl⟩ := List.mem_map.mp hn
      simp [topLevelFnNode]
    rw [h1, h2]
    simp
  · intro n hn hcomp
    rcases List.mem_append.mp hn with hp | hm
    · rw [(hpre n hp).1] at hcomp
      simp at hcomp
    · obtain ⟨s, _, rfl⟩ := List.mem_map.mp hm
      rfl
  · intro n hn
    rcases List.mem_append.mp hn with hp | hm
    · rw [(hpre n hp).2]
      simp
    · obtain ⟨s, _, rfl⟩ := List.mem_map.mp hm
      simp [topLevelFnNode]

/-- **C8** witness: one top-level function in flattened mode under a virtual
root. -/
theorem flattened_mode_topLevel_functions_witness :
    ((generateGraph ⟨[w2FileA], none, some "Backend", false⟩ w2Oracle).nodes.filter
        (fun n => n.type = "component")).length = 1 := by
  have h := flattened_mode_topLevel_functions w2FileA none (some "Backend")
    w2Oracle (by decide)
  simpa [SymList.toList] using h.1

/-- **C1** (bug witness): in `class C { m() { function g() {} } }` plus a
top-level function `h`, the nested function `g` is iterated by the call phase
(an aggregation promise is scheduled for it, and its would-be call target `h`
resolves through the reverse index to a mapped owner), yet `g` has **no**
entry in the symbol-owner map — the `// Should be mapped` early return fires
and its resolvable outgoing call is silently dropped: the edge set stays
empty. -/
theorem nested_entity_dropped_from_owner_map :
    (∃ t ∈ (callVisitPhase c1Input).order,
        t.2.2 = symNodeId "file:///a.ts" c1FnG) ∧
    mapGet (generateOwnerMap c1Input) (symNodeId "file:///a.ts" c1FnG) = none ∧
    mapGet (callVisitPhase c1Input).nodeIdMap (symNodeKey "file:///a.ts" c1FnH)
      = some (symNodeId "file:///a.ts" c1FnH) ∧
    mapGet (generateOwnerMap c1Input) (symNodeId "file:///a.ts" c1FnH)
      = some "file-file:///a.ts" ∧
    (generateGraph c1Input c1Oracle).edges = [] := by decide

/-! ### C2 and C9: call-edge aggregation -/

theorem foldl_match_filterMap {α β γ : Type} (f : α → Option β) (g : γ → β → γ)
    (l : List α) (init : γ) :
    l.foldl (fun acc a => match f a with | none => acc | some b => g acc b) init
      = (l.filterMap f).foldl g init := by
  induction l generalizing init with
  | nil => rfl
  | cons a l ih =>
    cases hf : f a <;> simp [List.filterMap_cons, hf, ih]

theorem aggregateOutgoingCalls_eq_foldBump (oracle : CallOracle)
    (nodeIdMap ownerMap : List (String × String)) (uri : String) (s : Sym)
    (symbolId : String) (em : EdgeMap) :
    aggregateOutgoingCalls oracle nodeIdMap ownerMap uri s symbolId em
      = foldBump (symbolCallTriples oracle nodeIdMap ownerMap uri s symbolId) em := by
  unfold aggregateOutgoingCalls symbolCallTriples
  split
  · rfl
  · split
    · rfl
    · unfold foldBump
      rw [← foldl_match_filterMap
        (resolveCall nodeIdMap ownerMap s _)
        (fun em t => bumpEdge em t.1 t.2)]
      congr 1
      funext em call
      unfold resolveCall
      split
      · rfl
      · split
        · rfl
        · split
          · rfl
          · rfl

theorem runCallPhase_eq_foldBump (oracle : CallOracle)
    (nim om : List (String × String)) (order : List (String × Sym × String)) :
    runCallPhase oracle nim om order
      = foldBump (order.flatMap (fun t =>
          symbolCallTriples oracle nim om t.1 t.2.1 t.2.2)) [] := by
  suffices h : ∀ em, order.foldl
      (fun em t => aggregateOutgoingCalls oracle nim om t.1 t.2.1 t.2.2 em) em
      = foldBump (order.flatMap fun t =>
          symbolCallTriples oracle nim om t.1 t.2.1 t.2.2) em from h []
  induction order with
  | nil => intro em; rfl
  | cons t rest ih =>
    intro em
    simp only [List.foldl_cons, List.flatMap_cons]
    rw [aggregateOutgoingCalls_eq_foldBump, ih]
    unfold foldBump
    rw [List.foldl_append]

theorem generateEdgeMap_eq_foldBump (input : GenInput) (oracle : CallOracle) :
    generateEdgeMap input oracle = foldBump (resolvedCalls input oracle) [] := by
  unfold generateEdgeMap resolvedCalls
  exact runCallPhase_eq_foldBump oracle _ _ _

theorem edgeMapMatches_nil : EdgeMapMatches [] [] := by
  refine ⟨by simp, fun p => ⟨fun meta hmeta => by simp [mapGet] at hmeta,
    fun _ => by simp⟩⟩

theorem edgeMapMatches_bump (proc : List ((String × String) × String))
    (em : EdgeMap) (h : EdgeMapMatches proc em)
    (t : (String × String) × String) :
    EdgeMapMatches (proc ++ [t]) (bumpEdge em t.1 t.2) := by
  obtain ⟨hkeys, hspec⟩ := h
  obtain ⟨p₀, d₀⟩ := t
  show EdgeMapMatches (proc ++ [(p₀, d₀)]) (bumpEdge em p₀ d₀)
  have hcount : ∀ p : String × String,
      (proc ++ [(p₀, d₀)]).countP (fun t => decide (t.1 = p))
        = proc.countP (fun t => decide (t.1 = p)) + if p₀ = p then 1 else 0 := by
    intro p
    rw [List.countP_append, List.countP_cons, List.countP_nil]
    by_cases hp : p₀ = p <;> simp [hp]
  have hmem : ∀ (p : String × String) (d : String),
      ((p, d) ∈ proc ++ [(p₀, d₀)]) ↔ ((p, d) ∈ proc ∨ (p = p₀ ∧ d = d₀)) := by
    intro p d
    simp [List.mem_append, Prod.ext_iff]
  unfold bumpEdge
  cases hq : mapGet em p₀ with
  | some meta₀ =>
    obtain ⟨hm₀count, hm₀nodup, hm₀mem, hm₀pos⟩ := (hspec p₀).1 meta₀ hq
    constructor
    · rw [mapSet_keys_of_some _ _ _ (by rw [hq]; rfl)]
      exact hkeys
    · intro p
      constructor
      · intro meta hmeta
        rw [mapGet_mapSet] at hmeta
        by_cases hpp : p₀ = p
        · subst hpp
          rw [if_pos rfl] at hmeta
          cases hmeta
          refine ⟨?_, setAdd_nodup _ _ hm₀nodup, ?_, ?_⟩
          · show meta₀.count + 1 = _
            rw [hcount, hm₀count, if_pos rfl]
          · intro d
            show d ∈ setAdd meta₀.calls d₀ ↔ _
            rw [mem_setAdd, hm₀mem, hmem]
            constructor
            · rintro (hd | rfl)
              · exact Or.inl hd
              · exact Or.inr ⟨rfl, rfl⟩
            · rintro (hd | ⟨-, rfl⟩)
              · exact Or.inl hd
              · exact Or.inr rfl
          · show 0 < meta₀.count + 1
            omega
        · rw [if_neg hpp] at hmeta
          obtain ⟨hc, hn, hm, hpos⟩ := (hspec p).1 meta hmeta
          refine ⟨?_, hn, ?_, hpos⟩
          · rw [hcount, hc, if_neg hpp]
            omega
          · intro d
            rw [hm, hmem]
            constructor
            · exact Or.inl
            · rintro (hd | ⟨rfl, rfl⟩)
              · exact hd
              · exact absurd rfl hpp
      · intro hnone
        rw [mapGet_mapSet] at hnone
        by_cases hpp : p₀ = p
        · rw [if_pos hpp] at hnone
          cases hnone
        · rw [if_neg hpp] at hnone
          rw [hcount, (hspec p).2 hnone, if_neg hpp]
  | none =>
    have hzero := (hspec p₀).2 hq
    constructor
    · rw [mapSet_keys_of_none _ _ _ hq]
      rw [List.nodup_append]
      refine ⟨hkeys, List.nodup_singleton _, ?_⟩
      intro a ha hb
      rw [List.mem_singleton] at hb
      subst hb
      rw [mapGet_eq_none_iff] at hq
      exact hq ha
    · intro p
      constructor
      · intro meta hmeta
        rw [mapGet_mapSet] at hmeta
        by_cases hpp : p₀ = p
        · subst hpp
          rw [if_pos rfl] at hmeta
          cases hmeta
          refine ⟨?_, List.nodup_singleton _, ?_, ?_⟩
          · show 1 = _
            rw [hcount, hzero, if_pos rfl]
          · intro d
            show d ∈ [d₀] ↔ _
            rw [List.mem_singleton, hmem]
            constructor
            · rintro rfl
              exact Or.inr ⟨rfl, rfl⟩
            · rintro (hd | ⟨-, rfl⟩)
              · exfalso
                rw [List.countP_eq_zero] at hzero
                have hcontra := hzero _ hd
                simp at hcontra
              · rfl
          · show (0 : Nat) < 1
            omega
        · rw [if_neg hpp] at hmeta
          obtain ⟨hc, hn, hm, hpos⟩ := (hspec p).1 meta hmeta
          refine ⟨?_, hn, ?_, hpos⟩
          · rw [hcount, hc, if_neg hpp]
            omega
          · intro d
            rw [hm, hmem]
            constructor
            · exact Or.inl
            · rintro (hd | ⟨rfl, rfl⟩)
              · exact hd
              · exact absurd rfl hpp
      · intro hnone
        rw [mapGet_mapSet] at hnone
        by_cases hpp : p₀ = p
        · rw [if_pos hpp] at hnone
          cases hnone
        · rw [if_neg hpp] at hnone
          rw [hcount, (hspec p).2 hnone, if_neg hpp]

theorem edgeMapMatches_foldBump (l : List ((String × String) × String)) :
    ∀ (proc : List ((String × String) × String)) (em : EdgeMap),
      EdgeMapMatches proc em → EdgeMapMatches (proc ++ l) (foldBump l em) := by
  induction l with
  | nil => intro proc em h; simpa [foldBump] using h
  | cons t rest ih =>
    intro proc em h
    have h1 := edgeMapMatches_bump proc em h t
    have h2 := ih (proc ++ [t]) (bumpEdge em t.1 t.2) h1
    rw [List.append_assoc] at h2
    simpa [foldBump] using h2

theorem edgeMap_spec (l : List ((String × String) × String)) :
    EdgeMapMatches l (foldBump l []) := by
  simpa using edgeMapMatches_foldBump l [] [] edgeMapMatches_nil

theorem foldl_append_flatMap {α β : Type} (g : α → List β) (l : List α)
    (acc : List β) :
    l.foldl (fun acc a => acc ++ g a) acc = acc ++ l.flatMap g := by
  induction l generalizing acc with
  | nil => simp
  | cons a l ih => simp [ih]

/-- One edge of the conversion output. -/
def edgeOfEntry (pm : (String × String) × EdgeMeta) : RFEdge :=
  { id := "e-" ++ pm.1.1 ++ "-" ++ pm.1.2, source := pm.1.1, target := pm.1.2,
    label := if pm.2.count > 1 then some (toString pm.2.count ++ " calls") else none,
    calls := pm.2.calls }

theorem edgesOfMap_eq_flatMap (em : EdgeMap) :
    edgesOfMap em = em.flatMap (fun pm =>
      if pm.1.1 ≠ pm.1.2 then [edgeOfEntry pm] else []) := by
  unfold edgesOfMap
  have hfun : (fun (acc : List RFEdge) (pm : (String × String) × EdgeMeta) =>
      if pm.1.1 ≠ pm.1.2 then
        acc ++ [{ id := "e-" ++ pm.1.1 ++ "-" ++ pm.1.2,
                  source := pm.1.1, target := pm.1.2,
                  label := if pm.2.count > 1 then
                    some (toString pm.2.count ++ " calls") else none,
                  calls := pm.2.calls }]
      else acc)
      = (fun acc pm => acc ++ (if pm.1.1 ≠ pm.1.2 then [edgeOfEntry pm] else [])) := by
    funext acc pm
    by_cases hpm : pm.1.1 ≠ pm.1.2 <;> simp [hpm, edgeOfEntry]
  rw [hfun, foldl_append_flatMap]
  simp

theorem edgesOfMap_pairs (em : EdgeMap) :
    (edgesOfMap em).map (fun e => (e.source, e.target))
      = (em.map Prod.fst).filter (fun p => decide (p.1 ≠ p.2)) := by
  rw [edgesOfMap_eq_flatMap]
  induction em with
  | nil => rfl
  | cons pm em ih =>
    by_cases hpm : pm.1.1 = pm.1.2
    · have hg : (if pm.1.1 ≠ pm.1.2 then [edgeOfEntry pm] else []) = [] :=
        if_neg (by simp [hpm])
      have hq : decide (pm.1.1 ≠ pm.1.2) = false := by simp [hpm]
      rw [List.flatMap_cons, hg, List.nil_append, List.map_cons, List.filter_cons, hq]
      simpa using ih
    · have hg : (if pm.1.1 ≠ pm.1.2 then [edgeOfEntry pm] else []) = [edgeOfEntry pm] :=
        if_pos hpm
      have hq : decide (pm.1.1 ≠ pm.1.2) = true := by simp [hpm]
      rw [List.flatMap_cons, hg, List.singleton_append, List.map_cons,
        List.map_cons, List.filter_cons, hq]
      simpa [edgeOfEntry] using ih

theorem mem_edgesOfMap (em : EdgeMap) (e : RFEdge) :
    e ∈ edgesOfMap em ↔
      ∃ pm ∈ em, pm.1.1 ≠ pm.1.2 ∧ e = edgeOfEntry pm := by
  rw [edgesOfMap_eq_flatMap]
  rw [List.mem_flatMap]
  constructor
  · rintro ⟨pm, hpm, he⟩
    by_cases hne : pm.1.1 ≠ pm.1.2
    · rw [if_pos hne, List.mem_singleton] at he
      exact ⟨pm, hpm, hne, he⟩
    · rw [if_neg hne] at he
      cases he
  · rintro ⟨pm, hpm, hne, rfl⟩
    exact ⟨pm, hpm, by rw [if_pos hne]; exact List.mem_singleton_self _⟩

theorem mapGet_of_mem_of_nodup {κ α : Type} [DecidableEq κ]
    (em : List (κ × α)) (hnd : (em.map Prod.fst).Nodup) (pm : κ × α)
    (hm : pm ∈ em) : mapGet em pm.1 = some pm.2 := by
  induction em with
  | nil => cases hm
  | cons q em ih =>
    obtain ⟨a, b⟩ := q
    rw [List.map_cons, List.nodup_cons] at hnd
    rcases List.mem_cons.mp hm with rfl | hm'
    · rw [mapGet_cons, if_pos rfl]
    · rw [mapGet_cons]
      have hne : a ≠ pm.1 := by
        intro he
        exact hnd.1 (he ▸ (List.mem_map.mpr ⟨pm, hm', rfl⟩))
      rw [if_neg hne]
      exact ih hnd.2 hm'

theorem resolveCall_some_ne (nim om : List (String × String)) (s : Sym)
    (so : String) (call : OutCall) (t : (String × String) × String)
    (h : resolveCall nim om s so call = some t) : t.1.1 ≠ t.1.2 := by
  unfold resolveCall at h
  split at h
  · cases h
  · split at h
    · cases h
    · split at h
      · cases h
        rename_i hne
        simpa using hne
      · cases h

theorem resolvedCalls_ne (input : GenInput) (oracle : CallOracle) :
    ∀ t ∈ resolvedCalls input oracle, t.1.1 ≠ t.1.2 := by
  intro t ht
  unfold resolvedCalls at ht
  rw [List.mem_flatMap] at ht
  obtain ⟨u, _, ht⟩ := ht
  unfold symbolCallTriples at ht
  revert ht
  split
  · intro ht; cases ht
  · split
    · intro ht; cases ht
    · intro ht
      rw [List.mem_filterMap] at ht
      obtain ⟨call, _, hc⟩ := ht
      exact resolveCall_some_ne _ _ _ _ _ _ hc

/-- **C2**: in the edge set produced by `generateGraph`, there is at most one
edge per ordered pair of owner ids, no edge has equal source and target (and
no same-owner call is ever aggregated), the accumulated `count` of an edge-map
entry equals the number of resolved calls between its two owners, and the
stored call-detail set holds exactly one entry per distinct call
description. -/
theorem edge_aggregation_correct (input : GenInput) (oracle : CallOracle) :
    ((generateGraph input oracle).edges.map (fun e => (e.source, e.target))).Nodup ∧
    (∀ e ∈ (generateGraph input oracle).edges, e.source ≠ e.target) ∧
    (∀ t ∈ resolvedCalls input oracle, t.1.1 ≠ t.1.2) ∧
    (∀ p meta, mapGet (generateEdgeMap input oracle) p = some meta →
      meta.count = (resolvedCalls input oracle).countP (fun t => decide (t.1 = p)) ∧
      meta.calls.Nodup ∧
      (∀ d, d ∈ meta.calls ↔ (p, d) ∈ resolvedCalls input oracle)) ∧
    (∀ e ∈ (generateGraph input oracle).edges,
      ∃ meta, mapGet (generateEdgeMap input oracle) (e.source, e.target) = some meta ∧
        e.calls = meta.calls) := by
  have hspec : EdgeMapMatches (resolvedCalls input oracle)
      (generateEdgeMap input oracle) := by
    rw [generateEdgeMap_eq_foldBump]
    exact edgeMap_spec _
  have hedges : (generateGraph input oracle).edges
      = edgesOfMap (generateEdgeMap input oracle) := rfl
  refine ⟨?_, ?_, resolvedCalls_ne input oracle, ?_, ?_⟩
  · rw [hedges, edgesOfMap_pairs]
    exact hspec.1.filter _
  · intro e he
    rw [hedges, mem_edgesOfMap] at he
    obtain ⟨pm, _, hne, rfl⟩ := he
    exact hne
  · intro p meta hmeta
    obtain ⟨hc, hn, hm, -⟩ := (hspec.2 p).1 meta hmeta
    exact ⟨hc, hn, hm⟩
  · intro e he
    rw [hedges, mem_edgesOfMap] at he
    obtain ⟨pm, hpm, hne, rfl⟩ := he
    exact ⟨pm.2, mapGet_of_mem_of_nodup _ hspec.1 pm hpm, rfl⟩

/-- **C2** witness: two identical reported calls `f → g` across two files are
aggregated into a single entry with count 2 and one distinct description. -/
theorem edge_aggregation_correct_witness :
    ({ count := 2, calls := ["f -> g"] } : EdgeMeta).count
      = (resolvedCalls w2Input w2Oracle).countP
          (fun t => decide (t.1 = ("file-file:///a.ts", "file-file:///b.ts"))) ∧
    ({ count := 2, calls := ["f -> g"] } : EdgeMeta).calls.Nodup := by
  have h := (edge_aggregation_correct w2Input w2Oracle).2.2.2.1
    ("file-file:///a.ts", "file-file:///b.ts")
    { count := 2, calls := ["f -> g"] } (by decide)
  exact ⟨h.1, h.2.1⟩

theorem edgeWeights_perm (l₁ l₂ : List ((String × String) × String))
    (hp : l₁.Perm l₂) :
    edgeWeights (foldBump l₁ []) = edgeWeights (foldBump l₂ []) := by
  have h₁ := edgeMap_spec l₁
  have h₂ := edgeMap_spec l₂
  have hcnt : ∀ p : String × String,
      l₂.countP (fun t => decide (t.1 = p)) = l₁.countP (fun t => decide (t.1 = p)) :=
    fun p => (hp.countP_eq _).symm
  -- each entry's count is the count function of its key
  have hmapc : ∀ (l : List ((String × String) × String)),
      EdgeMapMatches l (foldBump l []) →
      (foldBump l []).map (fun pm => pm.2.count)
        = ((foldBump l []).map Prod.fst).map
            (fun p => l.countP (fun t => decide (t.1 = p))) := by
    intro l hl
    rw [List.map_map]
    refine List.map_congr_left (fun pm hpm => ?_)
    have := (hl.2 pm.1).1 pm.2 (mapGet_of_mem_of_nodup _ hl.1 pm hpm)
    exact this.1
  -- the two key lists are permutations of each other
  have hkeys : ((foldBump l₁ []).map Prod.fst).Perm ((foldBump l₂ []).map Prod.fst) := by
    rw [List.perm_ext_iff_of_nodup h₁.1 h₂.1]
    intro p
    rw [← not_iff_not]
    rw [← mapGet_eq_none_iff, ← mapGet_eq_none_iff]
    constructor
    · intro hn
      have := (h₁.2 p).2 hn
      cases hm : mapGet (foldBump l₂ []) p with
      | none => rfl
      | some meta =>
        obtain ⟨hc, -, -, hpos⟩ := (h₂.2 p).1 meta hm
        rw [hc, hcnt, this] at hpos
        omega
    · intro hn
      have := (h₂.2 p).2 hn
      cases hm : mapGet (foldBump l₁ []) p with
      | none => rfl
      | some meta =>
        obtain ⟨hc, -, -, hpos⟩ := (h₁.2 p).1 meta hm
        rw [hc, ← hcnt, this] at hpos
        omega
  unfold edgeWeights
  rw [hmapc l₁ h₁, hmapc l₂ h₂]
  rw [Multiset.coe_eq_coe]
  have : ((foldBump l₂ []).map Prod.fst).map
        (fun p => l₂.countP (fun t => decide (t.1 = p)))
      = ((foldBump l₂ []).map Prod.fst).map
        (fun p => l₁.countP (fun t => decide (t.1 = p))) := by
    refine List.map_congr_left (fun p _ => hcnt p)
  rw [this]
  exact hkeys.map _

/-- **C9**: two successive stateful `generateGraph` runs on an unchanged file
batch with unchanged collaborator responses produce identical outputs (the
leftover `_nodeIdMap` state is cleared on entry), and the edge-weight multiset
is invariant under any completion order (permutation) of the resolved
calls. -/
theorem generateGraph_idempotent (st : ServiceState) (input : GenInput)
    (oracle : CallOracle) (l : List ((String × String) × String))
    (hp : l.Perm (resolvedCalls input oracle)) :
    (generateGraphRun st input oracle).2
        = (generateGraphRun (generateGraphRun st input oracle).1 input oracle).2 ∧
    (generateGraphRun st input oracle).2.nodes.map RFNode.id
        = (generateGraphRun (generateGraphRun st input oracle).1 input oracle).2.nodes.map RFNode.id ∧
    edgeWeights (foldBump l []) = edgeWeights (generateEdgeMap input oracle) := by
  refine ⟨rfl, rfl, ?_⟩
  rw [generateEdgeMap_eq_foldBump]
  exact edgeWeights_perm l _ hp

/-- **C9** witness: reversing the completion order of the resolved calls of
the concrete two-file input leaves the edge-weight multiset unchanged. -/
theorem generateGraph_idempotent_witness :
    edgeWeights (foldBump ((resolvedCalls w2Input w2Oracle).reverse) [])
      = edgeWeights (generateEdgeMap w2Input w2Oracle) :=
  (generateGraph_idempotent ⟨[]⟩ w2Input w2Oracle _ (List.reverse_perm _)).2.2

/-- **C6**: for every file path list and label, the deterministic heuristic
flow contains exactly `min 5 fileCount + 2` nodes — one start node, one
process node per file for the first (at most 5) files, and one end node — and
its edges are exactly the single linear chain running from the start node
through the process nodes in order to the end node. -/
theorem heuristicFlow_node_count_and_chain (asRel : String → String)
    (filePaths : List String) (label : String) :
    (generateHeuristicFlow asRel filePaths label).nodes.length
        = min 5 filePaths.length + 2 ∧
    (generateHeuristicFlow asRel filePaths label).nodes.map FlowNode.type
        = "start" :: (List.replicate (min 5 filePaths.length) "process" ++ ["end"]) ∧
    (generateHeuristicFlow asRel filePaths label).edges.map
        (fun e => (e.source, e.target))
        = chainPairs ((generateHeuristicFlow asRel filePaths label).nodes.map FlowNode.id) := by
  rcases filePaths with _ | ⟨a, _ | ⟨b, _ | ⟨c, _ | ⟨d, _ | ⟨e, rest⟩⟩⟩⟩⟩
  · exact ⟨rfl, rfl, rfl⟩
  · exact ⟨rfl, rfl, rfl⟩
  · exact ⟨rfl, rfl, rfl⟩
  · exact ⟨rfl, rfl, rfl⟩
  · exact ⟨rfl, rfl, rfl⟩
  · have hmin : min 5 (a :: b :: c :: d :: e :: rest).length = 5 := by
      simp [List.length_cons]
    refine ⟨?_, ?_, rfl⟩
    · rw [hmin]; rfl
    · rw [hmin]; rfl

/-- The heuristic branch never falls through to the component view: the
heuristic flow always has a positive node count. -/
theorem heuristicOrComponent_ne_componentView (asRel : String → String)
    (filePaths : List String) (label : String) :
    heuristicOrComponent asRel filePaths label ≠ DrillView.componentView := by
  unfold heuristicOrComponent
  have h : 0 < (generateHeuristicFlow asRel filePaths
      (if label = "" then "Process" else label)).nodes.length := by
    simp [generateHeuristicFlow]
  simp [h]

/-- **C10**: the heuristic flow always contains at least 2 nodes (start and
end are always pushed), so the `heuristicData.nodes.length > 0` check in the
system-node drill-down handler always succeeds and the final fallback branch
to the component graph is unreachable. -/
theorem heuristicFlow_component_fallback_unreachable (asRel : String → String)
    (subsystemData : Option FlowData) (filePaths : List String) (label : String) :
    2 ≤ (generateHeuristicFlow asRel filePaths label).nodes.length ∧
    systemDrillView asRel subsystemData filePaths label ≠ DrillView.componentView := by
  constructor
  · simp [generateHeuristicFlow]
  · unfold systemDrillView
    match subsystemData with
    | none => exact heuristicOrComponent_ne_componentView asRel filePaths label
    | some d =>
      by_cases hd : d.nodes.length > 1
      · simp [hd]
      · simp [hd]
        exact heuristicOrComponent_ne_componentView asRel filePaths label

end CodeBlocks
